import Mathlib

/-!
Verification of `email_analyzer.py` (EmailOrganizer).

The program fetches unread Gmail messages (paginated listing with a
count-based stopping heuristic), hydrates each message id into a light
record, clusters records by subject with TF-IDF + KMeans, and exports the
grouped result as CSV.

Shallow embedding notes:
* The Gmail service is modelled by three provider functions
  (`getCount`, `listPage`, `getMsg`), each returning `Except String _`
  so that a raised exception is an `.error`.
* The sklearn vectorizer + KMeans pair is modelled by an abstract
  `MLBackend` (documents, n_clusters, random_state ↦ labels, feature
  names, cluster centers, or an exception).  Everything the repository
  itself computes around that call — document building, cluster-count
  adjustment, label construction from centroids via argsort, assignment,
  the fallback — is embedded from the source.
* The float test `len(all_messages) >= total_count * 1.1` is modelled
  exactly (binary64 round-to-nearest-ties-to-even for the int→float
  conversion and the multiplication, exact int/float comparison,
  overflow to `+inf`); see `pyMarginStop`.
* Centroid weights are modelled as rationals.
-/

namespace EmailAnalyzer

/-- A page of the Gmail `messages.list` response: the message ids of the
page, and the continuation token (absent on the last page). -/
structure ListPage where
  messages : List String
  nextPageToken : Option String
deriving DecidableEq

/-- The metadata-format Gmail message returned by `messages.get`:
id, thread id, the requested headers (name, value) and the snippet. -/
structure GmailMessage where
  id : String
  threadId : String
  headers : List (String × String)
  snippet : Option String
deriving DecidableEq

/-- The email record (`email_data` dict) built by `get_all_unread_emails`
and later given a category by `suggest_categories`.  Keys that the code
may leave unset (`from`, `subject`, `date`, `category`) are `Option`. -/
structure EmailRecord where
  id : String
  threadId : String
  «from» : Option String
  subject : Option String
  date : Option String
  has_body : Bool
  body : String
  category : Option String
deriving DecidableEq

/-- Python `str` whitespace for `.strip()`: exactly the characters `c`
with `c.isspace()`, i.e. U+0009–U+000D, U+001C–U+001F, space, U+0085
(NEL), U+00A0 (no-break space), U+1680, U+2000–U+200A, U+2028, U+2029,
U+202F, U+205F and U+3000 (every Unicode whitespace code point). -/
def isPySpace (c : Char) : Bool :=
  let n := c.toNat
  (0x09 ≤ n && n ≤ 0x0d) || (0x1c ≤ n && n ≤ 0x1f) || n = 0x20 ||
  n = 0x85 || n = 0xa0 || n = 0x1680 || (0x2000 ≤ n && n ≤ 0x200a) ||
  n = 0x2028 || n = 0x2029 || n = 0x202f || n = 0x205f || n = 0x3000

/-- Python `s.strip()` on a character list: drop leading and trailing
whitespace. -/
def stripChars (l : List Char) : List Char :=
  ((l.dropWhile isPySpace).reverse.dropWhile isPySpace).reverse

/-- Python `s.strip()`. -/
def pyStrip (s : String) : String := ⟨stripChars s.data⟩

/-- Truthiness of `next_page_token` in `if not next_page_token: break`:
`None` and the empty string are falsy. -/
def pyTruthyToken : Option String → Bool
  | none => false
  | some s => !s.isEmpty

/-! #### Exact model of the float test `len(all_messages) >= total_count * 1.1`

Python evaluates `total_count * 1.1` by converting the int `total_count`
to a binary64 float (round to nearest, ties to even; `OverflowError`
beyond the double range) and multiplying by the double nearest to 1.1,
which is `2476979795053773 / 2^51`; the multiplication rounds to nearest
ties-to-even again, overflowing to `+inf` when the rounded result
reaches `2^1024`.  The comparison `int >= float` is then exact.  All of
this is integer arithmetic on dyadic rationals and is modelled exactly
below; only the `OverflowError` raised for estimates beyond the double
range (≥ ~1.8e308) is outside the model, which is why the fetch theorems
that depend on the margin check carry a `total ≤ 2^1020` hypothesis. -/

/-- Bit length of a natural number via a structurally recursive helper
(the fuel `n` always suffices, since the recursion depth is `log2 n + 1`). -/
def bitLenAux : ℕ → ℕ → ℕ
  | 0, _ => 0
  | fuel + 1, n => if n = 0 then 0 else bitLenAux fuel (n / 2) + 1

/-- Bit length: `bitLen 0 = 0` and `2^(bitLen n - 1) ≤ n < 2^(bitLen n)`
for `n ≥ 1`. -/
def bitLen (n : ℕ) : ℕ := bitLenAux n n

/-- Round `n / 2^s` to the nearest integer, ties to even (the quotient
used by 53-bit significand rounding). -/
def roundQ (n s : ℕ) : ℕ :=
  if 2 ^ (s - 1) < n % 2 ^ s then n / 2 ^ s + 1
  else if n % 2 ^ s = 2 ^ (s - 1) then
    (if (n / 2 ^ s) % 2 = 1 then n / 2 ^ s + 1 else n / 2 ^ s)
  else n / 2 ^ s

/-- Round a natural number to 53 significant bits, to nearest with ties
to even: returns `(m, s)` with the rounded value `m * 2^s`.  This is the
binary64 significand rounding (exponent unbounded). -/
def roundMant (n : ℕ) : ℕ × ℕ :=
  if bitLen n ≤ 53 then (n, 0)
  else (roundQ n (bitLen n - 53), bitLen n - 53)

/-- The rounded value `m * 2^s` of `roundMant`. -/
def roundVal (n : ℕ) : ℕ := (roundMant n).1 * 2 ^ (roundMant n).2

/-- The significand of the double nearest to 1.1:
`float(1.1) = 2476979795053773 / 2^51`. -/
def fl11mant : ℕ := 2476979795053773

/-- `float(total)`: the binary64 value of the int `total` (an integer,
since `total ≥ 2^53` rounds to a multiple of a power of two), or `none`
for `+inf`-range values (where Python raises `OverflowError`). -/
def flInt (total : ℕ) : Option ℕ :=
  if 2 ^ 1024 ≤ roundVal total then none else some (roundVal total)

/-- The Python test `len >= total * 1.1`, exactly: convert `total` to a
double `v`, round the exact product `v * float(1.1) = v * fl11mant / 2^51`
to a double `roundVal (v * fl11mant) / 2^51`, overflow to `+inf`
(comparison false) at `2^1024`, else compare exactly. -/
def pyMarginStop (len total : ℕ) : Bool :=
  match flInt total with
  | none => false
  | some v =>
    if 2 ^ 1024 * 2 ^ 51 ≤ roundVal (v * fl11mant) then false
    else decide (roundVal (v * fl11mant) ≤ len * 2 ^ 51)

/-- State of the pagination `while True` loop of `get_all_unread_emails`
(lines 75–106): the accumulated ids, the current token, how many pages
were requested, and whether a `break` has run. -/
structure FetchState where
  allMessages : List String
  pageToken : Option String
  pagesFetched : Nat
  stopped : Bool
deriving DecidableEq

/-- Loop state before the first iteration: `all_messages = []`,
`next_page_token = None`. -/
def initFetchState : FetchState :=
  { allMessages := [], pageToken := none, pagesFetched := 0, stopped := false }

/-- One iteration body of the pagination loop, applied to the response of
the current `messages.list` call:
* `if not messages: break` (before extending);
* `all_messages.extend(messages)`;
* `if not next_page_token: break`;
* `if len(all_messages) >= total_count * 1.1: break`, with the float
  comparison modelled exactly by `pyMarginStop`. -/
def applyResp (total : Nat) (s : FetchState) (resp : ListPage) : FetchState :=
  let fetched := s.pagesFetched + 1
  if resp.messages.isEmpty then
    { s with pagesFetched := fetched, stopped := true }
  else
    let acc := s.allMessages ++ resp.messages
    if !pyTruthyToken resp.nextPageToken then
      { allMessages := acc, pageToken := resp.nextPageToken,
        pagesFetched := fetched, stopped := true }
    else if pyMarginStop acc.length total then
      { allMessages := acc, pageToken := resp.nextPageToken,
        pagesFetched := fetched, stopped := true }
    else
      { allMessages := acc, pageToken := resp.nextPageToken,
        pagesFetched := fetched, stopped := false }

/-- One step of the loop over an exception-free page provider: do nothing
once a `break` has run, else request the next page and run the body. -/
def pureStep (lp : Option String → ListPage) (total : Nat) (s : FetchState) :
    FetchState :=
  if s.stopped then s else applyResp total s (lp s.pageToken)

/-- The pagination loop over a fallible page provider, with fuel.  A
raised exception propagates; once `stopped`, the state is final.  For
every estimate within the double range (`total ≤ 2^1020`) the loop
reaches a stopped state within `8 * total + 1` iterations
(see `pyMarginStop_false_bound` and `pureStep_terminates`), well inside
the fuel `fetchFuel total`.  Beyond the double range Python itself would
raise `OverflowError` at the margin test (caught by the `try:`); that
regime is outside the model. -/
def fetchLoop (lp : Option String → Except String ListPage) (total : Nat) :
    Nat → FetchState → Except String FetchState
  | 0, s => .ok s
  | n + 1, s =>
    if s.stopped then .ok s
    else
      match lp s.pageToken with
      | .error e => .error e
      | .ok resp => fetchLoop lp total n (applyResp total s resp)

/-- Fuel for the pagination loop; within the double range the loop needs
at most `8 * total + 1` steps to stop. -/
def fetchFuel (total : Nat) : Nat := 11 * total + 2

/-- The header-scanning loop (lines 134–140): for each header, the value
is stored under From / Subject / Date; a later header of the same name
overwrites an earlier one. -/
def extractFields (headers : List (String × String)) :
    Option String × Option String × Option String :=
  headers.foldl
    (fun acc h =>
      let acc := if h.1 = "From" then (some h.2, acc.2.1, acc.2.2) else acc
      let acc := if h.1 = "Subject" then (acc.1, some h.2, acc.2.2) else acc
      if h.1 = "Date" then (acc.1, acc.2.1, some h.2) else acc)
    (none, none, none)

/-- Building `email_data` from a fetched message (lines 127–148):
headers are scanned, `has_body = bool(msg.get('snippet', '').strip())`,
and `body` is always set to the empty string. -/
def buildRecord (msg : GmailMessage) : EmailRecord :=
  let f := extractFields msg.headers
  { id := msg.id
    threadId := msg.threadId
    «from» := f.1
    subject := f.2.1
    date := f.2.2
    has_body := !(pyStrip (msg.snippet.getD "")).isEmpty
    body := ""
    category := none }

/-- The hydration loop (lines 118–155): fetch every listed id in order
and build its record; an exception from any `messages.get` propagates. -/
def hydrateAll (getMsg : String → Except String GmailMessage)
    (ids : List String) : Except String (List EmailRecord) :=
  ids.mapM (fun mid => buildRecord <$> getMsg mid)

/-- The body of the `try:` block of `get_all_unread_emails` (lines 69–157):
count, paginate, return `[]` when no ids were found, else hydrate all. -/
def innerFetch (getCount : Except String Nat)
    (lp : Option String → Except String ListPage)
    (getMsg : String → Except String GmailMessage) :
    Except String (List EmailRecord) := do
  let total ← getCount
  let st ← fetchLoop lp total (fetchFuel total) initFetchState
  if st.allMessages.isEmpty then pure []
  else hydrateAll getMsg st.allMessages

/-- `get_all_unread_emails` (lines 67–161): the whole body is inside a
`try:`; any exception is caught and an empty list returned. -/
def get_all_unread_emails (getCount : Except String Nat)
    (lp : Option String → Except String ListPage)
    (getMsg : String → Except String GmailMessage) : List EmailRecord :=
  match innerFetch getCount lp getMsg with
  | .ok es => es
  | .error _ => []

/-! ### Categorizer (`suggest_categories`, lines 163–223) -/

/-- What the code consumes from the fitted sklearn objects:
`kmeans.labels_`, `vectorizer.get_feature_names_out()`,
`kmeans.cluster_centers_`.  Centroid weights are modelled as rationals. -/
structure MLResult where
  labels : List Nat
  featureNames : List String
  cluster_centers : List (List ℚ)
deriving DecidableEq

/-- Abstract model of `TfidfVectorizer.fit_transform` followed by
`KMeans(n_clusters, random_state).fit`: a function of the documents, the
cluster count and the random seed that either raises or yields the
fitted data.  (With a fixed `random_state`, sklearn KMeans is
deterministic, hence a function.) -/
abbrev MLBackend : Type :=
  List String → Nat → Nat → Except String MLResult

/-- The ordering underlying numpy's `argsort` on a centroid row: compare
values, and for equal values compare positions.  numpy's stable
ascending argsort of `row` is exactly the sort of the index list by this
total order (for small arrays numpy's introsort is an insertion sort,
which is stable). -/
def argLe (row : List ℚ) (i j : ℕ) : Prop :=
  row.getD i 0 < row.getD j 0 ∨ (row.getD i 0 = row.getD j 0 ∧ i ≤ j)

instance argLe.decidableRel (row : List ℚ) : DecidableRel (argLe row) := fun _ _ =>
  inferInstanceAs (Decidable (_ ∨ _))

instance argLe.isTotal (row : List ℚ) : IsTotal ℕ (argLe row) where
  total i j := by
    rcases lt_trichotomy (row.getD i 0) (row.getD j 0) with h | h | h
    · exact Or.inl (Or.inl h)
    · rcases Nat.le_total i j with hij | hij
      · exact Or.inl (Or.inr ⟨h, hij⟩)
      · exact Or.inr (Or.inr ⟨h.symm, hij⟩)
    · exact Or.inr (Or.inl h)

instance argLe.isTrans (row : List ℚ) : IsTrans ℕ (argLe row) where
  trans i j k hij hjk := by
    rcases hij with h1 | ⟨e1, l1⟩
    · rcases hjk with h2 | ⟨e2, _⟩
      · exact Or.inl (h1.trans h2)
      · exact Or.inl (e2 ▸ h1)
    · rcases hjk with h2 | ⟨e2, l2⟩
      · exact Or.inl (e1 ▸ h2)
      · exact Or.inr ⟨e1.trans e2, l1.trans l2⟩

/-- numpy's contract for `row.argsort()` (any `kind`): the result is a
permutation of the indices `0, …, len(row)-1` along which the values are
nondecreasing.  The relative order of indices with *equal* values is
implementation-defined for the default `kind='quicksort'` (an introsort,
unstable beyond its small-array insertion-sort regime), so the label
theorems quantify over every permutation satisfying this contract. -/
def ArgsortSpec (row : List ℚ) (p : List ℕ) : Prop :=
  List.Perm p (List.range row.length) ∧
  List.Chain' (fun a b => row.getD a 0 ≤ row.getD b 0) p

/-- Line 204 on an argsort result `p`:
`cluster_centers[i].argsort()[-3:][::-1]` — the last three entries of
the ascending argsort, reversed.  Python's `[-3:]` on a list shorter
than 3 yields the whole list. -/
def topIndicesOf (p : List ℕ) : List ℕ :=
  (p.drop (p.length - 3)).reverse

/-- Line 205: `[feature_names[idx] for idx in top_indices if idx < len(feature_names)]`. -/
def topWordsOf (p : List ℕ) (featureNames : List String) : List String :=
  ((topIndicesOf p).filter (fun idx => idx < featureNames.length)).map
    (fun idx => featureNames.getD idx "")

/-- Lines 206–209: the category name of cluster `i` built from the top
words of its centroid row, whose argsort was `p`. -/
def categoryNameOf (i : ℕ) (p : List ℕ) (featureNames : List String) : String :=
  let tw := topWordsOf p featureNames
  if tw.isEmpty then "Category " ++ toString (i + 1)
  else "Category " ++ toString (i + 1) ++ ": " ++ String.intercalate ", " tw

/-- One concrete `ArgsortSpec`-satisfying argsort, used to run the
pipeline: the indices sorted by (value, index).  It coincides with
numpy's behaviour on its insertion-sort (stable) regime of short rows —
in particular on the 4-element counterexample row below; for longer rows
numpy's default sort may order ties differently, which is why the label
theorems take the permutation as a parameter. -/
def argsort (row : List ℚ) : List ℕ :=
  List.insertionSort (argLe row) (List.range row.length)

/-- Lines 206–209 as the program computes them for centroid `row`. -/
def categoryName (i : ℕ) (row : List ℚ) (featureNames : List String) : String :=
  categoryNameOf i (argsort row) featureNames

/-- Lines 201–210: `for i in range(num_clusters)` read `cluster_centers[i]`
and build the cluster's name; reading past the end of `cluster_centers`
is a Python `IndexError`, which propagates to the `except`. -/
def makeCategories (centers : List (List ℚ)) (featureNames : List String)
    (k : ℕ) : Except String (List String) :=
  (List.range k).mapM (fun i =>
    match centers[i]? with
    | none => Except.error "IndexError"
    | some row => Except.ok (categoryName i row featureNames))

/-- Lines 212–214: `for i, email in enumerate(emails): email['category'] =
categories[clusters[i]]`.  The i-th email is paired with the i-th label;
running out of labels, or a label not indexing `categories`, is a Python
`IndexError`, which propagates to the `except`. -/
def assignAll (cats : List String) :
    List EmailRecord → List ℕ → Except String (List EmailRecord)
  | [], _ => Except.ok []
  | _ :: _, [] => Except.error "IndexError"
  | e :: es, l :: ls =>
    match cats[l]? with
    | none => Except.error "IndexError"
    | some c =>
      (fun rest => { e with category := some c } :: rest) <$> assignAll cats es ls

/-- Lines 183–184: `if len(documents) < num_clusters: num_clusters =
max(2, len(documents) // 2)`. -/
def effectiveClusters (docCount num_clusters : ℕ) : ℕ :=
  if docCount < num_clusters then max 2 (docCount / 2) else num_clusters

/-- `suggest_categories` (lines 163–223): empty input returns `[]`
immediately; otherwise documents are the subjects (`''` when absent),
the cluster count is adjusted, and the `try:` block runs the backend,
builds the category names and assigns them; any exception inside the
`try:` makes every record `"Uncategorized"`. -/
def suggest_categories (backend : MLBackend) (emails : List EmailRecord)
    (num_clusters : ℕ := 5) : List EmailRecord :=
  if emails.isEmpty then [] else
  let documents := emails.map (fun e => e.subject.getD "")
  let k := effectiveClusters documents.length num_clusters
  match (do
      let r ← backend documents k 42
      let categories ← makeCategories r.cluster_centers r.featureNames k
      assignAll categories emails r.labels :
      Except String (List EmailRecord)) with
  | Except.ok es => es
  | Except.error _ =>
    emails.map (fun e => { e with category := some "Uncategorized" })

/-! ### Exporter (`save_categories_to_file`, lines 225–251)

The `csv` module with the default (`excel`) dialect: fields are joined
with `,`, a field containing a comma, a double quote, a carriage return
or a newline is wrapped in double quotes with inner quotes doubled
(QUOTE_MINIMAL), and each row — including the header — ends with
`\x0d\n`.  Non-string cell values are written via `str()`, so the
has-body flag becomes `True`/`False`.  The file is modelled by the
character stream written to it; the surrounding `try:`/`except` only
turns an OS-level I/O error into a `False` return and is outside the
embedding. -/

/-- Python `str()` of a bool. -/
def pyStrOfBool (b : Bool) : String := if b then "True" else "False"

/-- QUOTE_MINIMAL: does this field need quoting? -/
def csvNeedsQuote (s : List Char) : Bool :=
  s.any (fun c => c = ',' || c = '"' || c = '\x0d' || c = '\n')

/-- Double every double quote inside a quoted field. -/
def escapeQuotes (s : List Char) : List Char :=
  s.flatMap (fun c => if c = '"' then ['"', '"'] else [c])

/-- One CSV cell, quoted when needed. -/
def csvField (s : List Char) : List Char :=
  if csvNeedsQuote s then '"' :: (escapeQuotes s ++ ['"']) else s

/-- Join cells with the `,` delimiter. -/
def joinComma : List (List Char) → List Char
  | [] => []
  | [f] => f
  | f :: g :: gs => f ++ ',' :: joinComma (g :: gs)

/-- One CSV row: joined cells plus the `\x0d\n` terminator. -/
def csvRow (fields : List (List Char)) : List Char :=
  joinComma fields ++ ['\x0d', '\n']

/-- Lines 239–245: the row written for one email of a category; missing
sender / subject / date fall back to `'Unknown'` / `'No subject'` /
`'Unknown'` via `dict.get`. -/
def recordRow (category : String) (e : EmailRecord) : List Char :=
  csvRow [csvField category.data,
          csvField ((e.«from»).getD "Unknown").data,
          csvField ((e.subject).getD "No subject").data,
          csvField ((e.date).getD "Unknown").data,
          csvField (pyStrOfBool e.has_body).data]

/-- `save_categories_to_file` (lines 225–251), as the character stream
written to the destination file: the header row from the fieldnames,
then for each category (in mapping order) one row per email (in list
order). -/
def save_categories_to_file (grouping : List (String × List EmailRecord)) :
    List Char :=
  csvRow ["Category".data, "From".data, "Subject".data, "Date".data,
          "Has Body".data]
    ++ (grouping.map (fun p => (p.2.map (recordRow p.1)).flatten)).flatten

/-- Physical line count of a written file: every line of the CSV output
ends with `\x0d\n`, so lines are counted by counting `\n`. -/
def lineCount (content : List Char) : ℕ := content.count '\n'

/-! ### Shared helper lemmas -/

theorem exceptBind_error {α β : Type} (e : String) (f : α → Except String β) :
    (Except.error e >>= f) = Except.error e := rfl

theorem exceptBind_ok {α β : Type} (a : α) (f : α → Except String β) :
    (Except.ok a >>= f) = f a := rfl

theorem isEmpty_false_of_ne_nil {α : Type} {l : List α} (h : l ≠ []) :
    l.isEmpty = false := by
  cases l with
  | nil => exact absurd rfl h
  | cons a t => rfl

theorem stripChars_eq_nil_iff (l : List Char) :
    stripChars l = [] ↔ ∀ c ∈ l, isPySpace c = true := by
  unfold stripChars
  rw [List.reverse_eq_nil_iff, List.dropWhile_eq_nil_iff]
  constructor
  · intro h c hc
    have hsplit := List.takeWhile_append_dropWhile isPySpace l
    rw [← hsplit] at hc
    rcases List.mem_append.mp hc with h1 | h1
    · exact List.mem_takeWhile_imp h1
    · exact h c (List.mem_reverse.mpr h1)
  · intro h c hc
    exact h c ((List.dropWhile_sublist isPySpace).subset (List.mem_reverse.mp hc))

theorem effectiveClusters_pos (n k : ℕ) (hk : 0 < k) :
    0 < effectiveClusters n k := by
  unfold effectiveClusters
  split
  · omega
  · exact hk

/-! ### C10 -/

/-- C10: called on an empty record sequence, `suggest_categories` returns
an empty sequence immediately; since this holds for every backend — in
particular for backends that would raise — no vectorization, clustering
or label assignment takes place. -/
theorem c10_empty_input (backend : MLBackend) (k : ℕ) :
    suggest_categories backend [] k = [] := rfl

/-! ### C5 -/

/-- C5: whenever any provider call of the fetch — the count query, a page
listing, or a per-message hydration — raises, `get_all_unread_emails`
catches the exception and returns the empty list: partially accumulated
records are never returned.  (The error is also printed; console output
is outside the embedding.) -/
theorem c5_fetch_aborts_empty (getCount : Except String Nat)
    (lp : Option String → Except String ListPage)
    (getMsg : String → Except String GmailMessage) (e : String)
    (h : innerFetch getCount lp getMsg = Except.error e) :
    get_all_unread_emails getCount lp getMsg = [] := by
  unfold get_all_unread_emails
  rw [h]

/-- Witness for C5: a provider whose second hydration raises, after one
page of two ids was accumulated and the first id was hydrated. -/
theorem c5_witness :
    innerFetch (Except.ok 0)
        (fun _ => Except.ok { messages := ["m1", "m2"], nextPageToken := none })
        (fun mid => if mid = "m1"
          then Except.ok { id := "m1", threadId := "t1", headers := [], snippet := none }
          else Except.error "boom")
      = Except.error "boom" ∧
    get_all_unread_emails (Except.ok 0)
        (fun _ => Except.ok { messages := ["m1", "m2"], nextPageToken := none })
        (fun mid => if mid = "m1"
          then Except.ok { id := "m1", threadId := "t1", headers := [], snippet := none }
          else Except.error "boom")
      = [] :=
  ⟨rfl, c5_fetch_aborts_empty _ _ _ "boom" rfl⟩

/-! ### C9 (corrected) -/

/-- Counterexample to C9 as stated: a hydrated message whose snippet is
the non-empty string `" "` gets `has_body = false`, because the code
tests `bool(msg.get('snippet', '').strip())` — the snippet is stripped
of whitespace first. -/
theorem c9_counterexample :
    (buildRecord ⟨"i", "t", [], some " "⟩).has_body = false ∧
    (some " " : Option String).getD "" ≠ "" := by
  constructor
  · rfl
  · intro h
    exact absurd (congrArg String.length h) (by decide)

/-- C9 amended: the record's `has_body` flag is true iff the snippet
(defaulted to `''` when absent) contains a non-whitespace character,
i.e. is non-empty after stripping; and the `body` field is always the
empty string. -/
theorem c9_has_body_amended (msg : GmailMessage) :
    (buildRecord msg).body = "" ∧
    ((buildRecord msg).has_body = true ↔
      ∃ c ∈ (msg.snippet.getD "").data, isPySpace c = false) := by
  refine ⟨rfl, ?_⟩
  show (!(pyStrip (msg.snippet.getD "")).isEmpty) = true ↔ _
  rw [Bool.not_eq_true']
  constructor
  · intro h
    by_contra hc
    push_neg at hc
    have hall : ∀ c ∈ (msg.snippet.getD "").data, isPySpace c = true := by
      intro c hcmem
      have := hc c hcmem
      cases hval : isPySpace c with
      | false => exact absurd hval this
      | true => rfl
    have : pyStrip (msg.snippet.getD "") = "" := by
      unfold pyStrip
      rw [(stripChars_eq_nil_iff _).mpr hall]
    rw [this] at h
    exact absurd h (by decide)
  · rintro ⟨c, hcmem, hcns⟩
    cases hval : (pyStrip (msg.snippet.getD "")).isEmpty with
    | false => rfl
    | true =>
      rw [String.isEmpty_iff] at hval
      have hnil : stripChars (msg.snippet.getD "").data = [] :=
        congrArg String.data hval
      have := (stripChars_eq_nil_iff _).mp hnil c hcmem
      rw [this] at hcns
      exact absurd hcns (by decide)

/-- Witness for C9 (amended): a concrete message with snippet `"hi"`. -/
theorem c9_witness :
    (buildRecord ⟨"i", "t", [], some "hi"⟩).body = "" ∧
    ((buildRecord ⟨"i", "t", [], some "hi"⟩).has_body = true ↔
      ∃ c ∈ ((some "hi" : Option String).getD "").data, isPySpace c = false) :=
  c9_has_body_amended ⟨"i", "t", [], some "hi"⟩

/-! ### Concrete records used by witnesses -/

/-- A concrete email record with all optional fields present. -/
def wEmail : EmailRecord :=
  ⟨"id1", "th1", some "alice@x", some "Invoice due", some "Mon", true, "", none⟩

/-- A concrete email record with all optional fields absent. -/
def wEmail2 : EmailRecord :=
  ⟨"id2", "th2", none, none, none, false, "", none⟩

/-! ### C8 -/

/-- C8: categorization is a deterministic function of its input.  Two
runs on identical input, against clustering libraries that agree at the
fixed seed `42` hard-coded by the code (in particular, two runs of the
same seeded library), assign identical labels to every record. -/
theorem c8_deterministic (b1 b2 : MLBackend) (emails : List EmailRecord)
    (k : ℕ) (h : ∀ docs m, b1 docs m 42 = b2 docs m 42) :
    suggest_categories b1 emails k = suggest_categories b2 emails k := by
  unfold suggest_categories
  by_cases he : emails.isEmpty
  · simp [he]
  · simp only [he, Bool.false_eq_true, if_false]
    rw [h]

/-- Witness for C8: two backends that differ at other seeds but agree at
seed 42 yield the same categorization of a concrete record list. -/
theorem c8_witness :
    suggest_categories
        (fun _ _ s => if s = 42 then Except.error "emptyvocab" else Except.error "x")
        [wEmail, wEmail2] 5
      = suggest_categories
        (fun _ _ s => if s = 42 then Except.error "emptyvocab" else Except.error "y")
        [wEmail, wEmail2] 5 :=
  c8_deterministic _ _ [wEmail, wEmail2] 5 (fun _ _ => rfl)

/-! ### C4 -/

/-- C4: when the document count is strictly below the requested cluster
count `k`, the effective cluster count is `max 2 (count / 2)` — and the
whole categorization behaves exactly as if it had been called with that
reduced count; otherwise `k` is used unchanged. -/
theorem c4_effective_clusters (b : MLBackend) (emails : List EmailRecord)
    (k : ℕ) :
    (emails.length < k →
      effectiveClusters emails.length k = max 2 (emails.length / 2) ∧
      suggest_categories b emails k
        = suggest_categories b emails (max 2 (emails.length / 2))) ∧
    (k ≤ emails.length → effectiveClusters emails.length k = k) := by
  constructor
  · intro hlt
    have h1 : effectiveClusters emails.length k = max 2 (emails.length / 2) := by
      simp [effectiveClusters, hlt]
    refine ⟨h1, ?_⟩
    have h2 : effectiveClusters emails.length (max 2 (emails.length / 2))
        = max 2 (emails.length / 2) := by
      unfold effectiveClusters
      split <;> rfl
    unfold suggest_categories
    simp only [List.length_map, h1, h2]
  · intro hle
    simp [effectiveClusters, Nat.not_lt.mpr hle]

/-- Witness for C4: one document against requested `k = 5`: the effective
cluster count is `max 2 (1 / 2) = 2` and the run equals a run requested
with 2. -/
theorem c4_witness :
    effectiveClusters [wEmail].length 5 = max 2 ([wEmail].length / 2) ∧
    suggest_categories (fun _ _ _ => Except.error "emptyvocab") [wEmail] 5
      = suggest_categories (fun _ _ _ => Except.error "emptyvocab") [wEmail]
          (max 2 ([wEmail].length / 2)) :=
  (c4_effective_clusters (fun _ _ _ => Except.error "emptyvocab") [wEmail] 5).1
    (by decide)

/-! ### C3 -/

/-- C3: if the vectorizer or the clustering raises — i.e. the backend
returns an error on the documents, the effective cluster count and seed
42 — then `suggest_categories` returns the input records, each labelled
`"Uncategorized"`; the fallback is the same for every record and no
exception escapes (the function is total and returns normally). -/
theorem c3_global_fallback (b : MLBackend) (emails : List EmailRecord)
    (k : ℕ) (err : String) (hne : emails ≠ [])
    (hb : b (emails.map (fun e => e.subject.getD ""))
        (effectiveClusters emails.length k) 42 = Except.error err) :
    suggest_categories b emails k
      = emails.map (fun e => { e with category := some "Uncategorized" }) := by
  unfold suggest_categories
  simp only [isEmpty_false_of_ne_nil hne, Bool.false_eq_true, if_false,
    List.length_map]
  rw [hb]
  rfl

/-- Witness for C3: a backend raising on every input (as the vectorizer
does on an empty vocabulary) labels both concrete records
`"Uncategorized"`. -/
theorem c3_witness :
    suggest_categories (fun _ _ _ => Except.error "emptyvocab")
        [wEmail, wEmail2] 5
      = [wEmail, wEmail2].map
          (fun e => { e with category := some "Uncategorized" }) :=
  c3_global_fallback (fun _ _ _ => Except.error "emptyvocab")
    [wEmail, wEmail2] 5 "emptyvocab" (by decide) rfl

/-! ### C1 (corrected) -/

theorem bitLenAux_zero (fuel : ℕ) : bitLenAux fuel 0 = 0 := by
  cases fuel <;> simp [bitLenAux]

theorem bitLenAux_bounds :
    ∀ (fuel n : ℕ), n ≤ fuel → 1 ≤ n →
      2 ^ (bitLenAux fuel n - 1) ≤ n ∧ n < 2 ^ bitLenAux fuel n := by
  intro fuel
  induction fuel with
  | zero => intro n hn h1; omega
  | succ f ih =>
    intro n hn h1
    have hne : ¬(n = 0) := by omega
    rw [bitLenAux, if_neg hne]
    by_cases h2 : n / 2 = 0
    · have hn1 : n = 1 := by omega
      subst hn1
      rw [h2, bitLenAux_zero]
      exact ⟨by norm_num, by norm_num⟩
    · have hrec := ih (n / 2) (by omega) (by omega)
      have hb1 : 1 ≤ bitLenAux f (n / 2) := by
        rcases Nat.eq_zero_or_pos (bitLenAux f (n / 2)) with hb | hb
        · rw [hb] at hrec
          simp at hrec
          omega
        · exact hb
      have hlow : 2 ^ (bitLenAux f (n / 2) - 1) ≤ n / 2 := hrec.1
      have hhigh : n / 2 < 2 ^ bitLenAux f (n / 2) := hrec.2
      have hpow1 : 2 ^ bitLenAux f (n / 2)
          = 2 * 2 ^ (bitLenAux f (n / 2) - 1) := by
        have heq : bitLenAux f (n / 2) - 1 + 1 = bitLenAux f (n / 2) := by omega
        conv_lhs => rw [← heq]
        rw [pow_succ]
        ring
      have hpow2 : 2 ^ (bitLenAux f (n / 2) + 1)
          = 2 * 2 ^ bitLenAux f (n / 2) := by
        rw [pow_succ]
        ring
      constructor
      · rw [Nat.add_sub_cancel]
        omega
      · rw [hpow2]
        omega

theorem bitLen_bounds (n : ℕ) (h1 : 1 ≤ n) :
    2 ^ (bitLen n - 1) ≤ n ∧ n < 2 ^ bitLen n :=
  bitLenAux_bounds n n le_rfl h1

theorem roundQ_le (n s : ℕ) : roundQ n s ≤ n / 2 ^ s + 1 := by
  unfold roundQ
  split
  · exact le_rfl
  · split
    · split <;> omega
    · omega

/-- Rounding to 53 significant bits at most doubles a natural number
(a crude bound, enough for the loop analysis). -/
theorem roundVal_le (n : ℕ) : roundVal n ≤ 2 * n := by
  unfold roundVal roundMant
  by_cases hb : bitLen n ≤ 53
  · rw [if_pos hb]
    simp
    omega
  · rw [if_neg hb]
    have h1 : 1 ≤ n := by
      by_contra h0
      push_neg at h0
      have : n = 0 := by omega
      subst this
      exact hb (by rw [bitLen, bitLenAux_zero]; omega)
    have h2s : 2 ^ (bitLen n - 53) ≤ n := by
      calc 2 ^ (bitLen n - 53)
          ≤ 2 ^ (bitLen n - 1) :=
            Nat.pow_le_pow_right (by norm_num) (by omega)
        _ ≤ n := (bitLen_bounds n h1).1
    calc roundQ n (bitLen n - 53) * 2 ^ (bitLen n - 53)
        ≤ (n / 2 ^ (bitLen n - 53) + 1) * 2 ^ (bitLen n - 53) :=
          Nat.mul_le_mul_right _ (roundQ_le n _)
      _ = n / 2 ^ (bitLen n - 53) * 2 ^ (bitLen n - 53)
          + 2 ^ (bitLen n - 53) := by ring
      _ ≤ n + n := by
          have := Nat.div_mul_le_self n (2 ^ (bitLen n - 53))
          omega
      _ = 2 * n := by ring

theorem fl11mant_le : fl11mant ≤ 2 ^ 52 := by
  unfold fl11mant
  norm_num

set_option maxRecDepth 8000 in
/-- When the estimate is within the double range, a live loop state's
accumulated count is below `8 * total` (otherwise the margin check would
have fired): the count check bounds the loop. -/
theorem pyMarginStop_false_bound (len total : ℕ) (htot : total ≤ 2 ^ 1020)
    (h : pyMarginStop len total = false) : len < 8 * total := by
  have hval : roundVal total ≤ 2 * total := roundVal_le total
  have hsmall : roundVal total < 2 ^ 1024 := by
    calc roundVal total ≤ 2 * total := hval
      _ ≤ 2 * 2 ^ 1020 := by omega
      _ = 2 ^ 1021 := by rw [← pow_succ']
      _ < 2 ^ 1024 := Nat.pow_lt_pow_right (by norm_num) (by norm_num)
  have hfl : flInt total = some (roundVal total) := by
    rw [flInt, if_neg (Nat.not_le.mpr hsmall)]
  rw [pyMarginStop] at h
  rw [hfl] at h
  replace h : (if 2 ^ 1024 * 2 ^ 51 ≤ roundVal (roundVal total * fl11mant)
      then false
      else decide (roundVal (roundVal total * fl11mant) ≤ len * 2 ^ 51))
      = false := h
  have hprod : roundVal (roundVal total * fl11mant)
      ≤ 2 * (roundVal total * fl11mant) := roundVal_le _
  have hbound : 2 * (roundVal total * fl11mant) ≤ 8 * total * 2 ^ 51 := by
    have h1 : roundVal total * fl11mant ≤ (2 * total) * 2 ^ 52 :=
      Nat.mul_le_mul hval fl11mant_le
    have h52 : (2 : ℕ) ^ 52 = 2 * 2 ^ 51 := by rw [pow_succ]; ring
    calc 2 * (roundVal total * fl11mant)
        ≤ 2 * ((2 * total) * 2 ^ 52) := by omega
      _ = 8 * total * 2 ^ 51 := by rw [h52]; ring
  have hsmall2 : roundVal (roundVal total * fl11mant)
      < 2 ^ 1024 * 2 ^ 51 := by
    have hlt : 8 * total * 2 ^ 51 < 2 ^ 1024 * 2 ^ 51 := by
      have ht8 : 8 * total < 2 ^ 1024 := by
        calc 8 * total ≤ 8 * 2 ^ 1020 := by omega
          _ = 2 ^ 1023 := by rw [show (8 : ℕ) = 2 ^ 3 from rfl, ← pow_add]
          _ < 2 ^ 1024 := Nat.pow_lt_pow_right (by norm_num) (by norm_num)
      exact (Nat.mul_lt_mul_right (by positivity)).mpr ht8
    omega
  rw [if_neg (Nat.not_le.mpr hsmall2)] at h
  have hlt : len * 2 ^ 51 < roundVal (roundVal total * fl11mant) :=
    Nat.not_le.mp (of_decide_eq_false h)
  have : len * 2 ^ 51 < 8 * total * 2 ^ 51 := by omega
  exact Nat.lt_of_mul_lt_mul_right this

theorem pureStep_of_stopped (lp : Option String → ListPage) (total : ℕ)
    {s : FetchState} (h : s.stopped = true) : pureStep lp total s = s := by
  simp [pureStep, h]

theorem applyResp_empty (total : ℕ) (s : FetchState) (resp : ListPage)
    (hm : resp.messages.isEmpty = true) :
    applyResp total s resp
      = { s with pagesFetched := s.pagesFetched + 1, stopped := true } := by
  simp [applyResp, hm]

theorem applyResp_noToken (total : ℕ) (s : FetchState) (resp : ListPage)
    (hm : resp.messages.isEmpty = false)
    (ht : pyTruthyToken resp.nextPageToken = false) :
    applyResp total s resp
      = { allMessages := s.allMessages ++ resp.messages,
          pageToken := resp.nextPageToken,
          pagesFetched := s.pagesFetched + 1, stopped := true } := by
  simp [applyResp, hm, ht]

theorem applyResp_margin (total : ℕ) (s : FetchState) (resp : ListPage)
    (hm : resp.messages.isEmpty = false)
    (ht : pyTruthyToken resp.nextPageToken = true)
    (hc : pyMarginStop (s.allMessages ++ resp.messages).length total = true) :
    applyResp total s resp
      = { allMessages := s.allMessages ++ resp.messages,
          pageToken := resp.nextPageToken,
          pagesFetched := s.pagesFetched + 1, stopped := true } := by
  rw [List.length_append] at hc
  simp [applyResp, hm, ht, hc]

theorem applyResp_continue (total : ℕ) (s : FetchState) (resp : ListPage)
    (hm : resp.messages.isEmpty = false)
    (ht : pyTruthyToken resp.nextPageToken = true)
    (hc : pyMarginStop (s.allMessages ++ resp.messages).length total = false) :
    applyResp total s resp
      = { allMessages := s.allMessages ++ resp.messages,
          pageToken := resp.nextPageToken,
          pagesFetched := s.pagesFetched + 1, stopped := false } := by
  rw [List.length_append] at hc
  simp [applyResp, hm, ht, hc]

theorem pureStep_progress (lp : Option String → ListPage) (total : ℕ)
    (s : FetchState) (h2 : (pureStep lp total s).stopped = false) :
    s.stopped = false ∧
    s.allMessages.length + 1 ≤ (pureStep lp total s).allMessages.length ∧
    pyMarginStop (pureStep lp total s).allMessages.length total = false := by
  have h1 : s.stopped = false := by
    cases hs : s.stopped with
    | false => rfl
    | true => rw [pureStep_of_stopped lp total hs, hs] at h2; cases h2
  refine ⟨h1, ?_⟩
  have hps : pureStep lp total s = applyResp total s (lp s.pageToken) := by
    simp [pureStep, h1]
  rw [hps] at h2 ⊢
  cases hm : (lp s.pageToken).messages.isEmpty with
  | true => rw [applyResp_empty total s _ hm] at h2; cases h2
  | false =>
    cases ht : pyTruthyToken (lp s.pageToken).nextPageToken with
    | false => rw [applyResp_noToken total s _ hm ht] at h2; cases h2
    | true =>
      cases hc : pyMarginStop
          (s.allMessages ++ (lp s.pageToken).messages).length total with
      | true => rw [applyResp_margin total s _ hm ht hc] at h2; cases h2
      | false =>
        rw [applyResp_continue total s _ hm ht hc]
        have hlen : 1 ≤ (lp s.pageToken).messages.length := by
          cases hmm : (lp s.pageToken).messages with
          | nil => rw [hmm] at hm; cases hm
          | cons a t => simp [hmm]
        constructor
        · rw [List.length_append]
          omega
        · exact hc

/-- For every estimate within the double range, the pagination loop
reaches a stopped state: the count-margin check makes it terminate even
when the provider always hands back a non-empty page and a token. -/
theorem pureStep_terminates (lp : Option String → ListPage) (total : ℕ)
    (htot : total ≤ 2 ^ 1020) :
    ∃ n, ((pureStep lp total)^[n] initFetchState).stopped = true := by
  by_contra hno
  push_neg at hno
  have hfalse : ∀ n, ((pureStep lp total)^[n] initFetchState).stopped = false := by
    intro n
    cases h : ((pureStep lp total)^[n] initFetchState).stopped with
    | false => rfl
    | true => exact absurd h (hno n)
  have hlen : ∀ n, n ≤ ((pureStep lp total)^[n] initFetchState).allMessages.length := by
    intro n
    induction n with
    | zero => exact Nat.zero_le _
    | succ m ih =>
      have hiter := Function.iterate_succ_apply' (pureStep lp total) m initFetchState
      have hstep := pureStep_progress lp total
        ((pureStep lp total)^[m] initFetchState)
        (by rw [← hiter]; exact hfalse (m + 1))
      rw [hiter]
      omega
  have hiter := Function.iterate_succ_apply' (pureStep lp total)
    (8 * total) initFetchState
  have hstep := pureStep_progress lp total
    ((pureStep lp total)^[8 * total] initFetchState)
    (by rw [← hiter]; exact hfalse (8 * total + 1))
  have hbound := pyMarginStop_false_bound
    ((pureStep lp total) ((pureStep lp total)^[8 * total] initFetchState)).allMessages.length
    total htot hstep.2.2
  have h1 := hlen (8 * total + 1)
  rw [hiter] at h1
  omega

set_option maxRecDepth 8000 in
/-- Counterexample to C1 as stated, at two concrete provider behaviours:

1. a page with no message ids but with a continuation token: the loop
   stops (`if not messages: break`) although a continuation token is
   present and the accumulated count (0) does not exceed the estimate by
   more than 10 percent;

2. estimate 10 and a first page of 11 ids with a continuation token: the
   accumulated count equals exactly 110 percent of the estimate — it
   does not exceed it by *more* than 10 percent — yet the loop stops,
   because `10 * 1.1` is exactly `11.0` in binary64 and the code tests
   `len(all_messages) >= total_count * 1.1`. -/
theorem c1_counterexample :
    ((pureStep (fun _ => ⟨[], some "t"⟩) 100 initFetchState).stopped = true ∧
      ¬(pyTruthyToken ((fun (_ : Option String) => (⟨[], some "t"⟩ : ListPage))
            initFetchState.pageToken).nextPageToken = false ∨
        11 * 100 < 10 * (initFetchState.allMessages.length
          + (([] : List String)).length))) ∧
    ((pureStep (fun _ => ⟨["m1", "m2", "m3", "m4", "m5", "m6", "m7", "m8",
          "m9", "m10", "m11"], some "t"⟩) 10 initFetchState).stopped = true ∧
      ¬(pyTruthyToken (some "t") = false ∨ 11 * 10 < 10 * (0 + 11))) := by
  constructor
  · exact ⟨by decide, by decide⟩
  · exact ⟨by decide, by decide⟩

/-- C1 amended: for every estimate within the double range, one
iteration of the pagination loop from a live state requests exactly one
page, and stops exactly when that page carries no message ids, or
carries no (or an empty) continuation token, or the accumulated
identifier count passes the code's float test
`len(all_messages) >= total_count * 1.1` (modelled bit-exactly by
`pyMarginStop`); and the loop always reaches a stopped state. -/
theorem c1_pagination_stop (lp : Option String → ListPage) (total : ℕ)
    (s : FetchState) (htot : total ≤ 2 ^ 1020) (h : s.stopped = false) :
    ((pureStep lp total s).stopped = true ↔
      ((lp s.pageToken).messages.isEmpty = true ∨
       pyTruthyToken (lp s.pageToken).nextPageToken = false ∨
       pyMarginStop (s.allMessages.length
         + (lp s.pageToken).messages.length) total = true)) ∧
    (pureStep lp total s).pagesFetched = s.pagesFetched + 1 ∧
    (∃ n, ((pureStep lp total)^[n] initFetchState).stopped = true) := by
  have hps : pureStep lp total s = applyResp total s (lp s.pageToken) := by
    simp [pureStep, h]
  refine ⟨?_, ?_, pureStep_terminates lp total htot⟩
  · rw [hps]
    cases hm : (lp s.pageToken).messages.isEmpty with
    | true =>
      rw [applyResp_empty total s _ hm]
      simp
    | false =>
      cases ht : pyTruthyToken (lp s.pageToken).nextPageToken with
      | false =>
        rw [applyResp_noToken total s _ hm ht]
        simp
      | true =>
        cases hc : pyMarginStop
            (s.allMessages ++ (lp s.pageToken).messages).length total with
        | true =>
          rw [applyResp_margin total s _ hm ht hc]
          rw [List.length_append] at hc
          simp [hc]
        | false =>
          rw [applyResp_continue total s _ hm ht hc]
          rw [List.length_append] at hc
          simp [hm, ht, hc]
  · rw [hps]
    cases hm : (lp s.pageToken).messages.isEmpty with
    | true => rw [applyResp_empty total s _ hm]
    | false =>
      cases ht : pyTruthyToken (lp s.pageToken).nextPageToken with
      | false => rw [applyResp_noToken total s _ hm ht]
      | true =>
        cases hc : pyMarginStop
            (s.allMessages ++ (lp s.pageToken).messages).length total with
        | true => rw [applyResp_margin total s _ hm ht hc]
        | false => rw [applyResp_continue total s _ hm ht hc]

/-- Witness for C1 (amended): a provider that always returns one id and
a token, with estimate 0: the first iteration requests one page and
stops through the count margin (`1 >= 0 * 1.1`). -/
theorem c1_witness :
    ((pureStep (fun _ => ⟨["a"], some "tok"⟩) 0 initFetchState).stopped = true ↔
      (((fun (_ : Option String) => (⟨["a"], some "tok"⟩ : ListPage))
          initFetchState.pageToken).messages.isEmpty = true ∨
       pyTruthyToken ((fun (_ : Option String) => (⟨["a"], some "tok"⟩ : ListPage))
          initFetchState.pageToken).nextPageToken = false ∨
       pyMarginStop (initFetchState.allMessages.length
         + ((fun (_ : Option String) => (⟨["a"], some "tok"⟩ : ListPage))
             initFetchState.pageToken).messages.length) 0 = true)) ∧
    (pureStep (fun _ => ⟨["a"], some "tok"⟩) 0 initFetchState).pagesFetched
      = initFetchState.pagesFetched + 1 ∧
    (∃ n, ((pureStep (fun _ => ⟨["a"], some "tok"⟩) 0)^[n] initFetchState).stopped
      = true) :=
  c1_pagination_stop (fun _ => ⟨["a"], some "tok"⟩) 0 initFetchState
    (Nat.zero_le _) rfl

/-! ### C2 -/

theorem exceptBind_eq_ok {α β : Type} {x : Except String α}
    {f : α → Except String β} {v : β}
    (h : (x >>= f) = Except.ok v) : ∃ a, x = Except.ok a ∧ f a = Except.ok v := by
  cases x with
  | error e => rw [exceptBind_error] at h; cases h
  | ok a => rw [exceptBind_ok] at h; exact ⟨a, rfl, h⟩

theorem mapME_ok {α β : Type} {f : α → Except String β} :
    ∀ {l : List α} {out : List β}, l.mapM f = Except.ok out →
      out.length = l.length ∧ ∀ b ∈ out, ∃ a ∈ l, f a = Except.ok b := by
  intro l
  induction l with
  | nil =>
    intro out h
    rw [List.mapM_nil] at h
    have : ([] : List β) = out := by simpa [pure, Except.pure] using h
    subst this
    exact ⟨rfl, by intro b hb; cases hb⟩
  | cons a t ih =>
    intro out h
    rw [List.mapM_cons] at h
    obtain ⟨b, hfa, h2⟩ := exceptBind_eq_ok h
    obtain ⟨bs, hmt, h3⟩ := exceptBind_eq_ok h2
    have : b :: bs = out := by simpa [pure, Except.pure] using h3
    subst this
    obtain ⟨hl, hmem⟩ := ih hmt
    refine ⟨by simp [hl], ?_⟩
    intro x hx
    rcases List.mem_cons.mp hx with rfl | hx
    · exact ⟨a, List.mem_cons_self a t, hfa⟩
    · obtain ⟨a2, ha2, hfa2⟩ := hmem x hx
      exact ⟨a2, List.mem_cons_of_mem a ha2, hfa2⟩

theorem assignAll_ok (cats : List String) :
    ∀ (es : List EmailRecord) (ls : List ℕ) (out : List EmailRecord),
      assignAll cats es ls = Except.ok out →
      out.length = es.length ∧ ∀ e ∈ out, ∃ c ∈ cats, e.category = some c := by
  intro es
  induction es with
  | nil =>
    intro ls out h
    have : ([] : List EmailRecord) = out := by simpa [assignAll] using h
    subst this
    exact ⟨rfl, by intro e he; cases he⟩
  | cons e es ih =>
    intro ls out h
    cases ls with
    | nil => simp [assignAll] at h
    | cons l ls =>
      cases hcl : cats[l]? with
      | none => simp only [assignAll, hcl] at h; cases h
      | some c =>
        simp only [assignAll, hcl] at h
        cases ha : assignAll cats es ls with
        | error e2 => rw [ha] at h; simp [Functor.map, Except.map] at h
        | ok rest =>
          rw [ha] at h
          have hout : { e with category := some c } :: rest = out := by
            simpa [Functor.map, Except.map] using h
          subst hout
          obtain ⟨hl, hmem⟩ := ih ls rest ha
          refine ⟨by simp [hl], ?_⟩
          intro x hx
          rcases List.mem_cons.mp hx with rfl | hx
          · exact ⟨c, List.getElem?_mem hcl, rfl⟩
          · exact hmem x hx

theorem makeCategories_ok {centers : List (List ℚ)} {fts : List String}
    {k : ℕ} {cats : List String}
    (h : makeCategories centers fts k = Except.ok cats) :
    cats.length = k ∧ ∀ c ∈ cats, ∃ i row, c = categoryName i row fts := by
  unfold makeCategories at h
  obtain ⟨hl, hmem⟩ := mapME_ok h
  refine ⟨by simpa using hl, ?_⟩
  intro c hc
  obtain ⟨i, _, hfi⟩ := hmem c hc
  cases hrow : centers[i]? with
  | none => rw [hrow] at hfi; cases hfi
  | some row =>
    rw [hrow] at hfi
    refine ⟨i, row, ?_⟩
    injection hfi with h2
    exact h2.symm

theorem string_append_ne_empty_left (a b : String) (ha : a.length ≠ 0) :
    a ++ b ≠ "" := by
  intro h
  have hl := congrArg String.length h
  rw [String.length_append] at hl
  have h0 : ("" : String).length = 0 := rfl
  rw [h0] at hl
  omega

theorem categoryNameOf_ne_empty (i : ℕ) (p : List ℕ) (fts : List String) :
    categoryNameOf i p fts ≠ "" := by
  by_cases htw : (topWordsOf p fts).isEmpty = true
  · have he : categoryNameOf i p fts = "Category " ++ toString (i + 1) := by
      simp [categoryNameOf, htw]
    rw [he]
    exact string_append_ne_empty_left _ _ (by decide)
  · rw [Bool.not_eq_true] at htw
    have he : categoryNameOf i p fts
        = "Category " ++ toString (i + 1) ++ ": "
          ++ String.intercalate ", " (topWordsOf p fts) := by
      simp [categoryNameOf, htw]
    rw [he]
    apply string_append_ne_empty_left
    rw [String.length_append, String.length_append]
    have h9 : ("Category " : String).length = 9 := rfl
    rw [h9]
    omega

theorem categoryName_ne_empty (i : ℕ) (row : List ℚ) (fts : List String) :
    categoryName i row fts ≠ "" :=
  categoryNameOf_ne_empty i (argsort row) fts

theorem distinct_le_of_mem (out : List EmailRecord) (cats : List String)
    (h : ∀ e ∈ out, ∃ c ∈ cats, e.category = some c) :
    ((out.map (fun e => e.category)).toFinset).card ≤ cats.length := by
  have hsub : (out.map (fun e => e.category)).toFinset
      ⊆ (cats.map some).toFinset := by
    intro x hx
    rw [List.mem_toFinset] at hx
    rw [List.mem_toFinset]
    obtain ⟨e, he, rfl⟩ := List.mem_map.mp hx
    obtain ⟨c, hc, hce⟩ := h e he
    rw [hce]
    exact List.mem_map.mpr ⟨c, hc, rfl⟩
  calc ((out.map (fun e => e.category)).toFinset).card
      ≤ (cats.map some).toFinset.card := Finset.card_le_card hsub
    _ ≤ (cats.map some).length := List.toFinset_card_le _
    _ = cats.length := List.length_map cats some

/-- Evaluation of `suggest_categories` on non-empty input: either the
`try:` body raised and all records are `"Uncategorized"`, or it produced
the assigned records. -/
theorem suggest_eval (b : MLBackend) (emails : List EmailRecord) (k : ℕ)
    (hne : emails ≠ []) :
    (∃ err,
      (b (emails.map fun e => e.subject.getD "") (effectiveClusters emails.length k) 42
        >>= fun r =>
          makeCategories r.cluster_centers r.featureNames
            (effectiveClusters emails.length k)
          >>= fun categories => assignAll categories emails r.labels)
        = Except.error err ∧
      suggest_categories b emails k
        = emails.map (fun e => { e with category := some "Uncategorized" })) ∨
    (∃ out,
      (b (emails.map fun e => e.subject.getD "") (effectiveClusters emails.length k) 42
        >>= fun r =>
          makeCategories r.cluster_centers r.featureNames
            (effectiveClusters emails.length k)
          >>= fun categories => assignAll categories emails r.labels)
        = Except.ok out ∧
      suggest_categories b emails k = out) := by
  have hempty := isEmpty_false_of_ne_nil hne
  have key : suggest_categories b emails k
      = match (b (emails.map fun e => e.subject.getD "")
            (effectiveClusters emails.length k) 42
          >>= fun r =>
            makeCategories r.cluster_centers r.featureNames
              (effectiveClusters emails.length k)
            >>= fun categories => assignAll categories emails r.labels) with
        | Except.ok es => es
        | Except.error _ =>
          emails.map (fun e => { e with category := some "Uncategorized" }) := by
    unfold suggest_categories
    simp only [hempty, Bool.false_eq_true, if_false, List.length_map]
  cases hdo : (b (emails.map fun e => e.subject.getD "")
        (effectiveClusters emails.length k) 42
      >>= fun r =>
        makeCategories r.cluster_centers r.featureNames
          (effectiveClusters emails.length k)
        >>= fun categories => assignAll categories emails r.labels) with
  | error err =>
    left
    rw [hdo] at key
    exact ⟨err, rfl, key⟩
  | ok out =>
    right
    rw [hdo] at key
    exact ⟨out, rfl, key⟩

/-- C2: on non-empty input (and a positive requested cluster count, the
program uses 5), every returned record carries exactly one category
label, that label is a non-empty string — whether clustering succeeded
or the fallback ran — and the number of distinct labels is at most the
effective cluster count. -/
theorem c2_labels (b : MLBackend) (emails : List EmailRecord) (k : ℕ)
    (hne : emails ≠ []) (hk : 0 < k) :
    (suggest_categories b emails k).length = emails.length ∧
    (∀ e ∈ suggest_categories b emails k, ∃ c, e.category = some c ∧ c ≠ "") ∧
    ((suggest_categories b emails k).map (fun e => e.category)).toFinset.card
      ≤ effectiveClusters emails.length k := by
  have hkeff := effectiveClusters_pos emails.length k hk
  obtain ⟨err, _, hout⟩ | ⟨out, hexp, hout⟩ := suggest_eval b emails k hne
  · rw [hout]
    refine ⟨by simp, ?_, ?_⟩
    · intro e he
      obtain ⟨e0, _, rfl⟩ := List.mem_map.mp he
      exact ⟨"Uncategorized", rfl, by decide⟩
    · have hmap : (emails.map
            (fun e => { e with category := some "Uncategorized" })).map
            (fun e => e.category)
          = List.replicate emails.length (some "Uncategorized") := by
        rw [List.map_map]
        exact List.map_const' emails (some "Uncategorized")
      rw [hmap]
      have hlen : emails.length ≠ 0 := by
        cases emails with
        | nil => exact absurd rfl hne
        | cons a t => simp
      rw [List.toFinset_replicate_of_ne_zero hlen]
      simpa using hkeff
  · obtain ⟨r, hb, h2⟩ := exceptBind_eq_ok hexp
    obtain ⟨cats, hmk, hassign⟩ := exceptBind_eq_ok h2
    obtain ⟨hclen, hcmem⟩ := makeCategories_ok hmk
    obtain ⟨holen, homem⟩ := assignAll_ok cats emails r.labels out hassign
    rw [hout]
    refine ⟨holen, ?_, ?_⟩
    · intro e he
      obtain ⟨c, hc, hce⟩ := homem e he
      obtain ⟨i, row, rfl⟩ := hcmem c hc
      exact ⟨categoryName i row r.featureNames, hce,
        categoryName_ne_empty i row r.featureNames⟩
    · have hcard := distinct_le_of_mem out cats homem
      rw [hclen] at hcard
      exact hcard

/-- A backend for the C2 witness: two documents, two clusters, one
feature. -/
def c2b : MLBackend := fun _ _ _ =>
  Except.ok { labels := [0, 1], featureNames := ["alpha"],
              cluster_centers := [[1], [2]] }

/-- Witness for C2: a concrete successful clustering of two records. -/
theorem c2_witness :
    (suggest_categories c2b [wEmail, wEmail2] 5).length
      = [wEmail, wEmail2].length ∧
    (∀ e ∈ suggest_categories c2b [wEmail, wEmail2] 5,
      ∃ c, e.category = some c ∧ c ≠ "") ∧
    ((suggest_categories c2b [wEmail, wEmail2] 5).map
        (fun e => e.category)).toFinset.card
      ≤ effectiveClusters [wEmail, wEmail2].length 5 :=
  c2_labels c2b [wEmail, wEmail2] 5 (by decide) (by decide)

/-! ### C6 (corrected) -/

theorem argsort_perm (row : List ℚ) :
    List.Perm (argsort row) (List.range row.length) :=
  List.perm_insertionSort _ _

theorem argsort_sorted (row : List ℚ) :
    List.Sorted (argLe row) (argsort row) :=
  List.sorted_insertionSort _ _

/-- The concrete `argsort` satisfies numpy's argsort contract. -/
theorem argsort_spec (row : List ℚ) : ArgsortSpec row (argsort row) := by
  refine ⟨argsort_perm row, ?_⟩
  apply List.Pairwise.chain'
  apply (argsort_sorted row).imp
  intro a b hab
  rcases hab with h | ⟨h, _⟩
  · exact le_of_lt h
  · exact le_of_eq h

/-- Counterexample to C6 as stated: on an all-equal centroid the claim's
tie-break (descending weight, then feature **index order**) predicts the
first three features `a, b, c`; on a 4-element row numpy's default sort
is its (stable) insertion sort, so `argsort()[-3:][::-1]` keeps the
stable ascending sort's *last* three indices and reverses them, and the
ties come out in descending index order: `d, c, b`. -/
theorem c6_counterexample :
    categoryName 0 [1, 1, 1, 1] ["a", "b", "c", "d"] = "Category 1: d, c, b" ∧
    categoryName 0 [1, 1, 1, 1] ["a", "b", "c", "d"] ≠ "Category 1: a, b, c" := by
  constructor
  · decide
  · decide

/-- C6 amended: for each cluster of a successful clustering, whatever
index permutation `p` numpy's argsort returned for the centroid row —
any permutation of the row's indices along which the weights are
nondecreasing; the order of equal weights is implementation-defined —
the label is built from the (up to) top-3-weighted feature indices
(every selected index is a valid position with weight at least that of
every unselected one, listed with nonincreasing weights), formatted
`"Category {i+1}: w1, w2, w3"` from the words of the selected indices
that index into the feature-name list, or `"Category {i+1}"` when no
word qualifies. -/
theorem c6_cluster_labels (i : ℕ) (row : List ℚ) (fts : List String)
    (p : List ℕ) (hp : List.Perm p (List.range row.length))
    (hsort : List.Chain' (fun a b => row.getD a 0 ≤ row.getD b 0) p) :
    (topIndicesOf p).length = min 3 row.length ∧
    List.Chain' (fun a b => row.getD b 0 ≤ row.getD a 0) (topIndicesOf p) ∧
    (∀ a ∈ topIndicesOf p, a < row.length) ∧
    (∀ a, a < row.length → a ∉ topIndicesOf p →
      ∀ b ∈ topIndicesOf p, row.getD a 0 ≤ row.getD b 0) ∧
    categoryNameOf i p fts
      = (if (topWordsOf p fts).isEmpty then "Category " ++ toString (i + 1)
         else "Category " ++ toString (i + 1) ++ ": "
           ++ String.intercalate ", " (topWordsOf p fts)) ∧
    topWordsOf p fts
      = ((topIndicesOf p).filter (fun idx => idx < fts.length)).map
          (fun idx => fts.getD idx "") := by
  have hplen : p.length = row.length := by
    rw [hp.length_eq, List.length_range]
  have hpair : List.Pairwise (fun a b => row.getD a 0 ≤ row.getD b 0) p := by
    haveI : IsTrans ℕ (fun a b => row.getD a 0 ≤ row.getD b 0) :=
      ⟨fun _ _ _ h1 h2 => le_trans h1 h2⟩
    exact List.chain'_iff_pairwise.mp hsort
  refine ⟨?_, ?_, ?_, ?_, rfl, rfl⟩
  · unfold topIndicesOf
    rw [List.length_reverse, List.length_drop, hplen]
    omega
  · unfold topIndicesOf
    have hs' : List.Pairwise (fun a b => row.getD a 0 ≤ row.getD b 0)
        (p.drop (p.length - 3)) :=
      List.Pairwise.sublist (List.drop_sublist _ _) hpair
    apply List.Pairwise.chain'
    rw [List.pairwise_reverse]
    exact hs'
  · intro a ha
    unfold topIndicesOf at ha
    have : a ∈ p := List.mem_of_mem_drop (List.mem_reverse.mp ha)
    have := hp.mem_iff.mp this
    exact List.mem_range.mp this
  · intro a hlt hnot b hb
    have hap : a ∈ p := hp.mem_iff.mpr (List.mem_range.mpr hlt)
    have hsplit : p.take (p.length - 3) ++ p.drop (p.length - 3) = p :=
      List.take_append_drop _ _
    unfold topIndicesOf at hb hnot
    have hb' : b ∈ p.drop (p.length - 3) := List.mem_reverse.mp hb
    have ha' : a ∈ p.take (p.length - 3) := by
      rw [← hsplit] at hap
      rcases List.mem_append.mp hap with h | h
      · exact h
      · exact absurd (List.mem_reverse.mpr h) hnot
    have hs := hpair
    rw [← hsplit] at hs
    exact (List.pairwise_append.mp hs).2.2 a ha' b hb'

/-- Witness for C6 (amended): a concrete contract-satisfying argsort
permutation of the 3-element row `[3, 1, 2]`. -/
theorem c6_witness :
    (topIndicesOf [1, 2, 0]).length = min 3 ([3, 1, 2] : List ℚ).length ∧
    List.Chain' (fun a b => ([3, 1, 2] : List ℚ).getD b 0
      ≤ ([3, 1, 2] : List ℚ).getD a 0) (topIndicesOf [1, 2, 0]) ∧
    (∀ a ∈ topIndicesOf [1, 2, 0], a < ([3, 1, 2] : List ℚ).length) ∧
    (∀ a, a < ([3, 1, 2] : List ℚ).length → a ∉ topIndicesOf [1, 2, 0] →
      ∀ b ∈ topIndicesOf [1, 2, 0],
        ([3, 1, 2] : List ℚ).getD a 0 ≤ ([3, 1, 2] : List ℚ).getD b 0) ∧
    categoryNameOf 0 [1, 2, 0] ["x", "y", "z"]
      = (if (topWordsOf [1, 2, 0] ["x", "y", "z"]).isEmpty
         then "Category " ++ toString (0 + 1)
         else "Category " ++ toString (0 + 1) ++ ": "
           ++ String.intercalate ", " (topWordsOf [1, 2, 0] ["x", "y", "z"])) ∧
    topWordsOf [1, 2, 0] ["x", "y", "z"]
      = ((topIndicesOf [1, 2, 0]).filter
          (fun idx => idx < (["x", "y", "z"] : List String).length)).map
          (fun idx => (["x", "y", "z"] : List String).getD idx "") :=
  c6_cluster_labels 0 [3, 1, 2] ["x", "y", "z"] [1, 2, 0] (by decide)
    (by simp only [List.chain'_cons, List.chain'_singleton, and_true]
        exact ⟨by decide, by decide⟩)

/-! ### C7 (corrected) -/

theorem count_lf_escapeQuotes (s : List Char) :
    (escapeQuotes s).count '\n' = s.count '\n' := by
  induction s with
  | nil => rfl
  | cons c t ih =>
    simp only [escapeQuotes, List.flatMap_cons, List.count_append] at ih ⊢
    by_cases hc : c = '"'
    · subst hc
      simp [List.count_cons, ih]
    · simp [List.count_cons, hc, ih, Nat.add_comm]

theorem count_lf_csvField (s : List Char) :
    (csvField s).count '\n' = s.count '\n' := by
  unfold csvField
  split
  · simp [List.count_cons, List.count_append, count_lf_escapeQuotes]
  · rfl

theorem count_lf_joinComma (fs : List (List Char)) :
    (joinComma fs).count '\n' = (fs.map (fun f => f.count '\n')).sum := by
  induction fs with
  | nil => rfl
  | cons f fs ih =>
    cases fs with
    | nil => simp [joinComma]
    | cons g gs =>
      rw [joinComma, List.count_append, List.count_cons]
      rw [ih]
      simp

theorem count_lf_csvRow (fields : List (List Char))
    (h : ∀ f ∈ fields, f.count '\n' = 0) :
    (csvRow fields).count '\n' = 1 := by
  unfold csvRow
  rw [List.count_append, count_lf_joinComma]
  have hz : (fields.map (fun f => f.count '\n')).sum = 0 := by
    apply List.sum_eq_zero
    intro x hx
    obtain ⟨f, hf, rfl⟩ := List.mem_map.mp hx
    exact h f hf
  rw [hz]
  rfl

theorem count_lf_recordRow (cat : String) (e : EmailRecord)
    (hcat : cat.data.count '\n' = 0)
    (hf : ((e.«from»).getD "Unknown").data.count '\n' = 0)
    (hs : ((e.subject).getD "No subject").data.count '\n' = 0)
    (hd : ((e.date).getD "Unknown").data.count '\n' = 0) :
    (recordRow cat e).count '\n' = 1 := by
  unfold recordRow
  apply count_lf_csvRow
  intro f hfm
  simp only [List.mem_cons, List.not_mem_nil, or_false] at hfm
  rcases hfm with rfl | rfl | rfl | rfl | rfl
  · rw [count_lf_csvField]; exact hcat
  · rw [count_lf_csvField]; exact hf
  · rw [count_lf_csvField]; exact hs
  · rw [count_lf_csvField]; exact hd
  · rw [count_lf_csvField]; cases e.has_body <;> decide

theorem count_lf_rows (cat : String) (es : List EmailRecord)
    (hcat : cat.data.count '\n' = 0)
    (h : ∀ e ∈ es,
      ((e.«from»).getD "Unknown").data.count '\n' = 0 ∧
      ((e.subject).getD "No subject").data.count '\n' = 0 ∧
      ((e.date).getD "Unknown").data.count '\n' = 0) :
    ((es.map (recordRow cat)).flatten).count '\n' = es.length := by
  induction es with
  | nil => rfl
  | cons e es ih =>
    rw [List.map_cons, List.flatten_cons, List.count_append]
    obtain ⟨h1, h2, h3⟩ := h e (List.mem_cons_self e es)
    rw [count_lf_recordRow cat e hcat h1 h2 h3]
    rw [ih (fun x hx => h x (List.mem_cons_of_mem e hx))]
    simp [Nat.add_comm]

theorem count_lf_groups (g : List (String × List EmailRecord))
    (h : ∀ p ∈ g, p.1.data.count '\n' = 0 ∧ ∀ e ∈ p.2,
      ((e.«from»).getD "Unknown").data.count '\n' = 0 ∧
      ((e.subject).getD "No subject").data.count '\n' = 0 ∧
      ((e.date).getD "Unknown").data.count '\n' = 0) :
    ((g.map (fun p => (p.2.map (recordRow p.1)).flatten)).flatten).count '\n'
      = (g.map (fun p => p.2.length)).sum := by
  induction g with
  | nil => rfl
  | cons p ps ih =>
    rw [List.map_cons, List.flatten_cons, List.count_append]
    obtain ⟨h1, h2⟩ := h p (List.mem_cons_self p ps)
    rw [count_lf_rows p.1 p.2 h1 h2]
    rw [ih (fun x hx => h x (List.mem_cons_of_mem p hx))]
    simp

/-- Counterexample to C7 as stated: a grouping with `N = 1` record whose
subject contains a line break.  The CSV writer quotes the field, the
break is written verbatim, and the file has 3 physical lines, not
`N + 1 = 2`. -/
theorem c7_counterexample :
    lineCount (save_categories_to_file
        [("C", [⟨"i", "t", some "x", some "a\nb", some "d", false, "", none⟩])])
      = 3 ∧
    lineCount (save_categories_to_file
        [("C", [⟨"i", "t", some "x", some "a\nb", some "d", false, "", none⟩])])
      ≠ ([("C", [(⟨"i", "t", some "x", some "a\nb", some "d", false, "",
          none⟩ : EmailRecord)])].map (fun p => p.2.length)).sum + 1 := by
  constructor
  · decide
  · decide

/-- C7 amended: on a grouping with `N` total records none of whose
written fields contains a line break, the export writes exactly `N + 1`
lines — the header line `Category,From,Subject,Date,Has Body` followed
by one row per record — and a missing sender / subject / date is written
as `Unknown` / `No subject` / `Unknown`.  (A field containing a line
break is quoted and spans extra physical lines, see the
counterexample.) -/
theorem c7_export_lines (grouping : List (String × List EmailRecord))
    (h : ∀ p ∈ grouping, p.1.data.count '\n' = 0 ∧ ∀ e ∈ p.2,
      ((e.«from»).getD "Unknown").data.count '\n' = 0 ∧
      ((e.subject).getD "No subject").data.count '\n' = 0 ∧
      ((e.date).getD "Unknown").data.count '\n' = 0) :
    lineCount (save_categories_to_file grouping)
      = (grouping.map (fun p => p.2.length)).sum + 1 ∧
    (∃ rest, save_categories_to_file grouping
      = "Category,From,Subject,Date,Has Body\x0d\n".data ++ rest) ∧
    (∀ cat (e : EmailRecord), e.«from» = none →
      recordRow cat e = recordRow cat { e with «from» := some "Unknown" }) ∧
    (∀ cat (e : EmailRecord), e.subject = none →
      recordRow cat e = recordRow cat { e with subject := some "No subject" }) ∧
    (∀ cat (e : EmailRecord), e.date = none →
      recordRow cat e = recordRow cat { e with date := some "Unknown" }) := by
  refine ⟨?_, ?_, ?_, ?_, ?_⟩
  · unfold lineCount save_categories_to_file
    rw [List.count_append, count_lf_groups grouping h]
    have hhdr : (csvRow ["Category".data, "From".data, "Subject".data,
        "Date".data, "Has Body".data]).count '\n' = 1 := by decide
    rw [hhdr]
    omega
  · refine ⟨(grouping.map (fun p => (p.2.map (recordRow p.1)).flatten)).flatten, ?_⟩
    unfold save_categories_to_file
    congr 1
  · intro cat e hn
    simp [recordRow, hn]
  · intro cat e hn
    simp [recordRow, hn]
  · intro cat e hn
    simp [recordRow, hn]

/-- Witness for C7: three newline-free records in two categories give a
4-line file. -/
theorem c7_witness :
    lineCount (save_categories_to_file
        [("Work", [wEmail, wEmail2]), ("Other", [wEmail])])
      = ([("Work", [wEmail, wEmail2]), ("Other", [wEmail])].map
          (fun p => p.2.length)).sum + 1 ∧
    (∃ rest, save_categories_to_file
        [("Work", [wEmail, wEmail2]), ("Other", [wEmail])]
      = "Category,From,Subject,Date,Has Body\x0d\n".data ++ rest) ∧
    (∀ cat (e : EmailRecord), e.«from» = none →
      recordRow cat e = recordRow cat { e with «from» := some "Unknown" }) ∧
    (∀ cat (e : EmailRecord), e.subject = none →
      recordRow cat e = recordRow cat { e with subject := some "No subject" }) ∧
    (∀ cat (e : EmailRecord), e.date = none →
      recordRow cat e = recordRow cat { e with date := some "Unknown" }) :=
  c7_export_lines [("Work", [wEmail, wEmail2]), ("Other", [wEmail])] (by decide)

end EmailAnalyzer
